import Mathlib

/-!
# Verification of the ccnyc-valentine-2025 submission board

A shallow embedding of the server in `src/main.ts` (two variants, separated
in the source) and `src/sse.ts` (the broadcast registry), with theorems
checking the natural-language specification against the code.

Modelling conventions:
* JavaScript values produced by `JSON.parse` are the inductive `JSValue`;
  property access, truthiness and `typeof` checks follow JS semantics.
* `crypto.randomUUID()` is modelled as a fresh-identifier generator: the
  `nextId` counter of the server state; distinct draws are distinct, which
  is the guarantee the code relies on.  An id is a `Nat` (the draw index).
* `Date.now()` is the `now` field of the server state, set by the
  environment before each request.
* Deno KV is an association list `List (Nat × Submission)` kept sorted by
  key; `kv.list({prefix: ["iframe"]})` yields entries in key order, which
  is Deno KV's documented iteration order.  All keys written by this
  program have the form `["iframe", id]`, so the prefix scan returns the
  whole list.
* An SSE `ReadableStreamDefaultController` is an opaque handle (`Nat`,
  allocated by `nextController`); `controller.enqueue` appends to the
  per-handle `buffers` when the stream is live and throws when the stream
  is closed (`closed h = true`), exactly the cases in which the real
  `enqueue` throws a `TypeError`.  Exceptions are `Except.error` carrying
  the state as mutated so far.
* HTTP response bodies are modelled at the JSON level (`Body.json`),
  except file/plain-text responses (`Body.text`) and the SSE streaming
  body (`Body.stream` with its controller handle).
-/

/-- A JavaScript value as produced by `JSON.parse`. -/
inductive JSValue where
  | null : JSValue
  | bool : Bool → JSValue
  | num : Int → JSValue
  | str : String → JSValue
  | arr : List JSValue → JSValue
  | obj : List (String × JSValue) → JSValue

/-- JS truthiness: `null`, `false`, `0` and `""` are falsy; every other
JSON-representable value is truthy. -/
def JSValue.truthy : JSValue → Bool
  | .null => false
  | .bool b => b
  | .num n => n != 0
  | .str s => s != ""
  | .arr _ => true
  | .obj _ => true

/-- `typeof v === "string"`. -/
def JSValue.isString : JSValue → Bool
  | .str _ => true
  | _ => false

/-- The string payload of a `.str`; arbitrary on other constructors
(only used after an `isString` test). -/
def JSValue.asString : JSValue → String
  | .str s => s
  | _ => ""

/-- Last-wins field lookup on an object's field list (`JSON.parse` keeps
the last duplicate key, so reading a property sees the last binding). -/
def lookupField (fields : List (String × JSValue)) (k : String) : Option JSValue :=
  fields.foldl (fun acc p => if p.1 = k then some p.2 else acc) none

/-- JS property access `v.k`: throws (`.error`) on `null`, yields the
field on objects, and yields `undefined` (`none`) on every other value.
`undefined` is represented by `none`; where the code then tests the
result, `undefined` is falsy and not a string, like `JSValue.null`. -/
def getProp (v : JSValue) (k : String) : Except Unit (Option JSValue) :=
  match v with
  | .null => .error ()
  | .obj fields => .ok (lookupField fields k)
  | _ => .ok none

/-- A stored submission record (`type Submission` in `src/main.ts`).
`id` is the draw index of the UUID generator; `creator` keeps the exact
JS value the code stored (`data.creator || null`), which the code never
type-checks. -/
structure Submission where
  id : Nat
  embed : String
  creator : JSValue
  timestamp : Nat

/-- The JSON document the server serializes for a submission, both as the
201 response body and as the broadcast payload. -/
def submissionJson (s : Submission) : JSValue :=
  .obj [("id", .num s.id), ("embed", .str s.embed),
        ("creator", s.creator), ("timestamp", .num s.timestamp)]

/-- An HTTP response body: a JSON document, plain text / file bytes, or an
open SSE stream identified by its controller handle. -/
inductive Body where
  | json : JSValue → Body
  | text : String → Body
  | stream : Nat → Body

/-- An HTTP response: status, headers, body.  `new Response(x, opts)` has
default status 200. -/
structure Response where
  status : Nat
  headers : List (String × String)
  body : Body

/-- The whole mutable state of the server process. -/
structure ServerState where
  /-- The Deno KV contents, sorted by key (the submission id). -/
  kv : List (Nat × Submission)
  /-- Next draw of the `crypto.randomUUID()` generator. -/
  nextId : Nat
  /-- `sseClients`: the JS `Set` of registered controllers, in insertion
  order (JS `Set` iteration order). -/
  clients : List Nat
  /-- Frames enqueued so far on each controller's stream. -/
  buffers : Nat → List String
  /-- Whether a controller's stream is closed/cancelled, so that
  `enqueue` on it throws. -/
  closed : Nat → Bool
  /-- Next controller handle to be allocated by `handleSSE`. -/
  nextController : Nat
  /-- Controllers whose `cancel` callback has already run (the streams
  layer fires `cancel` at most once per stream). -/
  cancelled : List Nat
  /-- `Date.now()` at the current request. -/
  now : Nat

/-- The initial state of a freshly started server process. -/
def initState : ServerState :=
  { kv := [], nextId := 0, clients := [], buffers := fun _ => [],
    closed := fun _ => false, nextController := 0, cancelled := [], now := 0 }

/-! ## src/sse.ts -/

/-- The SSE wire frame for one broadcast message:
`` `data: ${message}\n\n` ``. -/
def sseFrame (message : String) : String :=
  "data: " ++ message ++ "\n\n"

/-- `sseClients.add(controller)`: JS `Set.add`, keyed by handle identity,
keeping insertion order. -/
def setAdd (c : Nat) (s : List Nat) : List Nat :=
  if c ∈ s then s else s ++ [c]

/-- `sseClients.delete(controller)`: JS `Set.delete`; removing an absent
element is a no-op, not an error. -/
def setDelete (c : Nat) (s : List Nat) : List Nat :=
  s.erase c

/-- `controller.enqueue(chunk)`: appends to the stream's queue when the
stream is live, throws a `TypeError` when it is closed. -/
def enqueue (closed : Nat → Bool) (bufs : Nat → List String) (c : Nat)
    (chunk : String) : Except Unit (Nat → List String) :=
  if closed c then .error ()
  else .ok (fun x => if x = c then bufs x ++ [chunk] else bufs x)

/-- The `for (const controller of sseClients)` loop of
`broadcastNewSketch`: enqueue the frame on each registered controller in
iteration order; an exception from `enqueue` aborts the loop, leaving the
buffers mutated so far (carried on the `.error`). -/
def broadcastLoop (closed : Nat → Bool) (frame : String) :
    List Nat → (Nat → List String) → Except (Nat → List String) (Nat → List String)
  | [], bufs => .ok bufs
  | c :: cs, bufs =>
    match enqueue closed bufs c frame with
    | .error _ => .error bufs
    | .ok bufs' => broadcastLoop closed frame cs bufs'

/-- `broadcastNewSketch(message)`: frames the message and enqueues it on
every registered client; there is no try/catch and no removal on failure,
so an enqueue exception propagates to the caller. -/
def broadcastNewSketch (message : String) (st : ServerState) :
    Except ServerState ServerState :=
  match broadcastLoop st.closed (sseFrame message) st.clients st.buffers with
  | .ok bufs => .ok { st with buffers := bufs }
  | .error bufs => .error { st with buffers := bufs }

/-- The headers of the `handleSSE` response. -/
def sseHeaders : List (String × String) :=
  [("Content-Type", "text/event-stream"),
   ("Cache-Control", "no-cache"),
   ("Connection", "keep-alive")]

/-- `handleSSE()`: allocates a fresh stream controller, whose `start`
callback registers it in `sseClients`, and returns a 200 response whose
body is the open stream.  (`new Response(stream, {headers})` has default
status 200.) -/
def handleSSE (st : ServerState) : Response × ServerState :=
  let controller := st.nextController
  ({ status := 200, headers := sseHeaders, body := .stream controller },
   { st with clients := setAdd controller st.clients,
             nextController := st.nextController + 1 })

/-- The `cancel` callback of the stream created by `handleSSE`: runs when
the client disconnects (transport close, cancellation, network error) and
deletes the controller from `sseClients`.  The streams layer fires it at
most once per stream; afterwards `enqueue` on the controller throws, which
the model records in `closed`. -/
def sseCancel (controller : Nat) (st : ServerState) : ServerState :=
  { st with clients := setDelete controller st.clients,
            cancelled := controller :: st.cancelled,
            closed := fun x => if x = controller then true else st.closed x }

/-! ## Deno KV and JSON.stringify -/

/-- `kv.set(["iframe", k], v)`: point update of the store, which keeps its
entries sorted by key (Deno KV iterates keys in order).  The real keys
are random UUID strings, so the store's key order is unrelated to
submission order; in the model the keys are the generator's draw
indices, which realizes one of the possible key orders.  Theorems about
listing therefore only assert what holds for an arbitrary key order
(the record multiset, lengths, and whether a variant sorts). -/
def kvSet : List (Nat × Submission) → Nat → Submission → List (Nat × Submission)
  | [], k, v => [(k, v)]
  | (k0, v0) :: rest, k, v =>
    if k < k0 then (k, v) :: (k0, v0) :: rest
    else if k = k0 then (k, v) :: rest
    else (k0, v0) :: kvSet rest k v

/-- `JSON.stringify` escaping of one character inside a string literal. -/
def jsonEscapeChar (c : Char) : String :=
  if c = '"' then "\\\""
  else if c = '\\' then "\\\\"
  else if c = '\n' then "\\n"
  else if c = '\r' then "\\r"
  else if c = '\t' then "\\t"
  else String.singleton c

/-- `JSON.stringify` escaping of a string's characters. -/
def jsonEscape (s : String) : String :=
  String.join (s.data.map jsonEscapeChar)

/-- `JSON.stringify`: renders a JS value to its JSON text.  Objects keep
their field order (JS objects preserve insertion order). -/
def jsonRender : JSValue → String
  | .null => "null"
  | .bool true => "true"
  | .bool false => "false"
  | .num n => toString n
  | .str s => "\"" ++ jsonEscape s ++ "\""
  | .arr xs => "[" ++ String.intercalate "," (xs.attach.map fun x => jsonRender x.1) ++ "]"
  | .obj fields => "\x7b" ++ String.intercalate ","
      (fields.attach.map fun p =>
        "\"" ++ jsonEscape p.1.1 ++ "\":" ++ jsonRender p.1.2) ++ "\x7d"
decreasing_by
  · have h := List.sizeOf_lt_of_mem x.2
    simp only [JSValue.arr.sizeOf_spec]
    omega
  · obtain ⟨⟨a, b⟩, hp⟩ := p
    have h := List.sizeOf_lt_of_mem hp
    simp only [Prod.mk.sizeOf_spec] at h
    simp only [JSValue.obj.sizeOf_spec]
    omega

/-! ## src/main.ts — handleSubmit (identical in both variants) -/

/-- 400 response with a JSON `{error: ...}` body. -/
def errorResponse (msg : String) : Response :=
  { status := 400, headers := [("Content-Type", "application/json")],
    body := .json (.obj [("error", .str msg)]) }

/-- The body of the `try` block of `handleSubmit`, given the result of
`_req.json()` (`none` when the body is not parsable JSON, in which case
`_req.json()` rejects and the `catch` runs).  An `.error` result is a
thrown exception reaching the `catch`, carrying the mutated state. -/
def handleSubmitTry (parsed : Option JSValue) (st : ServerState) :
    Except ServerState (Response × ServerState) :=
  match parsed with
  | none => .error st
  | some data =>
    match getProp data "embed" with
    | .error _ => .error st
    | .ok embedOpt =>
      -- `if (!data.embed || typeof data.embed !== "string")`
      let embedVal := embedOpt.getD .null
      if !embedVal.truthy || !embedVal.isString then
        .ok (errorResponse "Missing or invalid 'embed' field.", st)
      else
        let id := st.nextId
        -- `creator: data.creator || null` (data is an object here, so
        -- the property access cannot throw)
        let creator :=
          match getProp data "creator" with
          | .ok (some v) => if v.truthy then v else JSValue.null
          | _ => JSValue.null
        let submission : Submission :=
          { id := id, embed := embedVal.asString, creator := creator,
            timestamp := st.now }
        -- `await kv.set(["iframe", id], submission)`
        let st1 := { st with kv := kvSet st.kv id submission,
                             nextId := st.nextId + 1 }
        -- `broadcastNewSketch(JSON.stringify(submission))`
        match broadcastNewSketch (jsonRender (submissionJson submission)) st1 with
        | .error st2 => .error st2
        | .ok st2 =>
          .ok ({ status := 201,
                 headers := [("Content-Type", "application/json")],
                 body := .json (submissionJson submission) }, st2)

/-- `handleSubmit`: the `try`/`catch`.  The `catch` returns a 400
`{error: "Invalid JSON or server error."}` response; state mutations made
before the throw persist. -/
def handleSubmit (parsed : Option JSValue) (st : ServerState) :
    Response × ServerState :=
  match handleSubmitTry parsed st with
  | .ok r => r
  | .error st' => (errorResponse "Invalid JSON or server error.", st')

/-! ## src/main.ts — the two handleList variants -/

/-- Newest-first comparison: the JS comparator
`(a, b) => b.timestamp - a.timestamp` sorts descending by timestamp. -/
def newerEq (a b : Submission) : Prop := b.timestamp ≤ a.timestamp

instance : DecidableRel newerEq := fun a b => by
  unfold newerEq; infer_instance

/-- First `handleList` variant: collects every entry of the
`["iframe"]` prefix scan (in key order), sorts newest-first with
`(a, b) => b.timestamp - a.timestamp`, and returns the JSON array.
The `if (entry.value)` guard is vacuous here: every stored value is an
object, hence truthy. -/
def handleList (st : ServerState) : Response :=
  let submissions := st.kv.map Prod.snd
  let sorted := List.insertionSort newerEq submissions
  { status := 200, headers := [("Content-Type", "application/json")],
    body := .json (.arr (sorted.map submissionJson)) }

/-- Second `handleList` variant: same prefix scan, no sort — the records
come back in the store's key order. -/
def handleListNoSort (st : ServerState) : Response :=
  let submissions := st.kv.map Prod.snd
  { status := 200, headers := [("Content-Type", "application/json")],
    body := .json (.arr (submissions.map submissionJson)) }

/-! ## src/main.ts — static files and routing -/

/-- JS `String.prototype.startsWith`, over the character sequence. -/
def jsStartsWith (s pre : String) : Bool :=
  pre.data.isPrefixOf s.data

/-- JS `String.prototype.endsWith`, over the character sequence. -/
def jsEndsWith (s suf : String) : Bool :=
  suf.data.isSuffixOf s.data

/-- `serveStatic`: reads `.${url.pathname}` from the filesystem (modelled
as a partial map from path to contents); on success responds 200 with the
file bytes and a content type chosen by the path's extension
(`url.pathname.endsWith('.css') ? 'text/css' : 'text/plain'`); a read
failure becomes 404. -/
def serveStatic (fs : String → Option String) (pathname : String) : Response :=
  match fs ("." ++ pathname) with
  | some file =>
    let contentType := if jsEndsWith pathname ".css" then "text/css" else "text/plain"
    { status := 200, headers := [("Content-Type", contentType)], body := .text file }
  | none => { status := 404, headers := [], body := .text "Not Found" }

/-- `serveIndex`: reads `./index.html`; 200 HTML on success, 404 on a read
failure. -/
def serveIndex (fs : String → Option String) : Response :=
  match fs "./index.html" with
  | some file =>
    { status := 200, headers := [("Content-Type", "text/html")], body := .text file }
  | none => { status := 404, headers := [], body := .text "Not Found" }

/-- An inbound HTTP request: method, URL path, and parse result of the
body (`none` = not parsable as JSON). -/
structure Request where
  method : String
  path : String
  parsedBody : Option JSValue

/-- The router of the first `main.ts` variant (the one with the
`/static/` route). -/
def handler (fs : String → Option String) (req : Request) (st : ServerState) :
    Response × ServerState :=
  if req.path = "/submit" ∧ req.method = "POST" then handleSubmit req.parsedBody st
  else if req.path = "/sketches" ∧ req.method = "GET" then (handleList st, st)
  else if req.path = "/events" ∧ req.method = "GET" then handleSSE st
  else if jsStartsWith req.path "/static/" then (serveStatic fs req.path, st)
  else if req.path = "/" then (serveIndex fs, st)
  else ({ status := 404, headers := [], body := .text "Not Found" }, st)

/-! ## Derived notions used to state the specification -/

/-- A request body is a valid submission: a JSON object whose `embed`
field passes the code's test (`truthy` and of string type, i.e. a
non-empty string). -/
def validBody : JSValue → Bool
  | .obj fields =>
    match lookupField fields "embed" with
    | some v => v.truthy && v.isString
    | none => false
  | _ => false

/-- The `embed` string the code extracts from a (valid) body. -/
def embedOf (b : JSValue) : String :=
  match getProp b "embed" with
  | .ok (some v) => v.asString
  | _ => ""

/-- The creator value the code stores: `data.creator || null`. -/
def creatorOf (b : JSValue) : JSValue :=
  match getProp b "creator" with
  | .ok (some v) => if v.truthy then v else .null
  | _ => .null

/-- The record a successful `handleSubmit` builds from body `b`, with id
draw `id` at time `t`. -/
def submittedRecord (id : Nat) (b : JSValue) (t : Nat) : Submission :=
  { id := id, embed := embedOf b, creator := creatorOf b, timestamp := t }

/-- Buffer state after a broadcast that reached every connection of the
list in order: the ok-path of `broadcastLoop`. -/
def deliverList (frame : String) : List Nat → (Nat → List String) → (Nat → List String)
  | [], bufs => bufs
  | c :: cs, bufs =>
    deliverList frame cs (fun x => if x = c then bufs x ++ [frame] else bufs x)

/-- All registered push connections are live (their streams not yet
cancelled) — the situation in which no enqueue throws.  Every state the
server actually reaches satisfies this, because the `cancel` callback
removes a controller from `sseClients` in the same step in which the
stream closes (see `reachable_liveAll`). -/
def liveAll (st : ServerState) : Prop :=
  ∀ c ∈ st.clients, st.closed c = false

/-- Running a sequence of `POST /submit` requests, the environment
setting the clock before each. -/
def runSubmits : List (JSValue × Nat) → ServerState → ServerState
  | [], st => st
  | (b, t) :: rest, st =>
    runSubmits rest (handleSubmit (some b) { st with now := t }).2

/-- The records a run of submissions creates, given the first id draw. -/
def recordsFrom (n : Nat) : List (JSValue × Nat) → List Submission
  | [] => []
  | (b, t) :: rest => submittedRecord n b t :: recordsFrom (n + 1) rest

/-- The timestamps of the records of a JSON-array response body, in
array order. -/
def timestampsOf : Body → List Int
  | .json (.arr xs) =>
    xs.filterMap fun v =>
      match v with
      | .obj fields =>
        match lookupField fields "timestamp" with
        | some (.num n) => some n
        | _ => none
      | _ => none
  | _ => []

/-! ## The server's event-level semantics

The externally visible actions that mutate server state: a client opens
`/events` (`connect`, running `handleSSE`), a client's transport closes
(`disconnect`, running the stream's `cancel` callback), a `POST /submit`
arrives (`submit`).  `GET /sketches`, `/`, `/static/*` are read-only. -/

inductive Event where
  | connect : Event
  | disconnect : Nat → Event
  | submit : Option JSValue → Nat → Event

/-- State transition of one event. -/
def stepEvent (st : ServerState) : Event → ServerState
  | .connect => (handleSSE st).2
  | .disconnect h => sseCancel h st
  | .submit parsed t => (handleSubmit parsed { st with now := t }).2

/-- Environment constraints on an event: a `disconnect` can only happen
to a controller that was actually created, and the streams layer fires a
stream's `cancel` callback at most once. -/
def validEvent (st : ServerState) : Event → Prop
  | .connect => True
  | .disconnect h => h < st.nextController ∧ h ∉ st.cancelled
  | .submit _ _ => True

/-- Run a trace of events. -/
def runTrace (st : ServerState) : List Event → ServerState
  | [] => st
  | e :: es => runTrace (stepEvent st e) es

/-- Every event of the trace is valid in the state where it fires. -/
def ValidTrace : ServerState → List Event → Prop
  | _, [] => True
  | st, e :: es => validEvent st e ∧ ValidTrace (stepEvent st e) es

/-- How many times the trace fires the `cancel` callback (and hence
`sseClients.delete`) of controller `h`. -/
def disconnectCount (h : Nat) : List Event → Nat
  | [] => 0
  | .disconnect h' :: es => (if h' = h then 1 else 0) + disconnectCount h es
  | _ :: es => disconnectCount h es

/-- The state invariant the server maintains. -/
structure WF (st : ServerState) : Prop where
  clients_nodup : st.clients.Nodup
  clients_lt : ∀ c ∈ st.clients, c < st.nextController
  closed_lt : ∀ c, st.closed c = true → c < st.nextController
  clients_live : ∀ c ∈ st.clients, st.closed c = false
  kv_lt : ∀ p ∈ st.kv, p.1 < st.nextId

/-! ## Helper lemmas -/

theorem deliverList_not_mem {f : String} {c : Nat} :
    ∀ {l : List Nat} {bufs : Nat → List String}, c ∉ l →
      deliverList f l bufs c = bufs c := by
  intro l
  induction l with
  | nil => intro bufs _; rfl
  | cons a as ih =>
    intro bufs hc
    have hca : c ≠ a := fun h => hc (h ▸ List.mem_cons_self a as)
    have hcas : c ∉ as := fun h => hc (List.mem_cons_of_mem a h)
    simp only [deliverList, ih hcas, if_neg hca]

theorem deliverList_mem {f : String} {c : Nat} :
    ∀ {l : List Nat} {bufs : Nat → List String}, l.Nodup → c ∈ l →
      deliverList f l bufs c = bufs c ++ [f] := by
  intro l
  induction l with
  | nil => intro bufs _ hc; cases hc
  | cons a as ih =>
    intro bufs hnd hc
    rcases List.mem_cons.mp hc with hca | hcas
    · subst hca
      have hna : c ∉ as := (List.nodup_cons.mp hnd).1
      simp [deliverList, deliverList_not_mem hna]
    · have hca : c ≠ a := fun h => (List.nodup_cons.mp hnd).1 (h ▸ hcas)
      simp only [deliverList, ih (List.nodup_cons.mp hnd).2 hcas, if_neg hca]

theorem broadcastLoop_ok {closed : Nat → Bool} {f : String} :
    ∀ {l : List Nat} {bufs : Nat → List String},
      (∀ x ∈ l, closed x = false) →
      broadcastLoop closed f l bufs = .ok (deliverList f l bufs) := by
  intro l
  induction l with
  | nil => intro bufs _; rfl
  | cons a as ih =>
    intro bufs hl
    have ha : closed a = false := hl a (List.mem_cons_self a as)
    simp only [broadcastLoop, enqueue, ha, Bool.false_eq_true, if_false, deliverList]
    exact ih fun x hx => hl x (List.mem_cons_of_mem a hx)

theorem broadcastLoop_fail {closed : Nat → Bool} {f : String} {c : Nat}
    (hc : closed c = true) :
    ∀ {pre : List Nat} {post : List Nat} {bufs : Nat → List String},
      (∀ x ∈ pre, closed x = false) →
      broadcastLoop closed f (pre ++ c :: post) bufs = .error (deliverList f pre bufs) := by
  intro pre
  induction pre with
  | nil =>
    intro post bufs _
    simp only [List.nil_append, broadcastLoop, enqueue, hc, if_true, deliverList]
  | cons a as ih =>
    intro post bufs hl
    have ha : closed a = false := hl a (List.mem_cons_self a as)
    simp only [List.cons_append, broadcastLoop, enqueue, ha, Bool.false_eq_true,
      if_false, deliverList]
    exact ih fun x hx => hl x (List.mem_cons_of_mem a hx)

theorem broadcastNewSketch_ok {m : String} {st : ServerState} (h : liveAll st) :
    broadcastNewSketch m st =
      .ok { st with buffers := deliverList (sseFrame m) st.clients st.buffers } := by
  simp only [broadcastNewSketch, broadcastLoop_ok h]

theorem kvSet_append {k : Nat} {v : Submission} :
    ∀ {kv : List (Nat × Submission)}, (∀ p ∈ kv, p.1 < k) →
      kvSet kv k v = kv ++ [(k, v)] := by
  intro kv
  induction kv with
  | nil => intro _; rfl
  | cons p rest ih =>
    intro hk
    have hp : p.1 < k := hk p (List.mem_cons_self p rest)
    obtain ⟨k0, v0⟩ := p
    have h1 : ¬ k < k0 := by omega
    have h2 : k ≠ k0 := by omega
    simp only [kvSet, if_neg h1, if_neg h2, List.cons_append, List.cons.injEq, true_and]
    exact ih fun q hq => hk q (List.mem_cons_of_mem _ hq)

/-- Inversion of the code's `embed` test. -/
theorem validBody_iff {b : JSValue} :
    validBody b = true ↔
      ∃ fields e, b = .obj fields ∧
        lookupField fields "embed" = some (.str e) ∧ e ≠ "" := by
  constructor
  · intro h
    cases b with
    | obj fields =>
      refine ⟨fields, ?_⟩
      cases hv : lookupField fields "embed" with
      | none => rw [validBody, hv] at h; cases h
      | some v =>
        rw [validBody, hv] at h
        cases v with
        | str e =>
          refine ⟨e, rfl, rfl, ?_⟩
          simp only [JSValue.truthy, JSValue.isString, Bool.and_true] at h
          simpa using h
        | null => cases h
        | bool bb => simp [JSValue.isString] at h
        | num n => simp [JSValue.isString] at h
        | arr xs => simp [JSValue.isString] at h
        | obj fs => simp [JSValue.isString] at h
    | null => cases h
    | bool bb => cases h
    | num n => cases h
    | str s => cases h
    | arr xs => cases h
  · rintro ⟨fields, e, rfl, hf, he⟩
    rw [validBody, hf]
    simp [JSValue.truthy, JSValue.isString, he]

theorem mem_kvSet {k : Nat} {v : Submission} :
    ∀ {kv : List (Nat × Submission)} {q : Nat × Submission},
      q ∈ kvSet kv k v → q.1 = k ∨ q ∈ kv := by
  intro kv
  induction kv with
  | nil =>
    intro q hq
    simp only [kvSet, List.mem_singleton] at hq
    exact Or.inl (by rw [hq])
  | cons p rest ih =>
    intro q hq
    obtain ⟨k0, v0⟩ := p
    by_cases h1 : k < k0
    · simp only [kvSet, if_pos h1, List.mem_cons] at hq
      rcases hq with h | h | h
      · exact Or.inl (by rw [h])
      · exact Or.inr (List.mem_cons.mpr (Or.inl h))
      · exact Or.inr (List.mem_cons.mpr (Or.inr h))
    · by_cases h2 : k = k0
      · simp only [kvSet, if_neg h1, if_pos h2, List.mem_cons] at hq
        rcases hq with h | h
        · exact Or.inl (by rw [h])
        · exact Or.inr (List.mem_cons.mpr (Or.inr h))
      · simp only [kvSet, if_neg h1, if_neg h2, List.mem_cons] at hq
        rcases hq with h | h
        · exact Or.inr (List.mem_cons.mpr (Or.inl h))
        · rcases ih h with h' | h'
          · exact Or.inl h'
          · exact Or.inr (List.mem_cons.mpr (Or.inr h'))

/-- A successful submission, when every registered connection is live:
the exact response and the exact state change. -/
theorem handleSubmit_valid (st : ServerState) (b : JSValue)
    (hb : validBody b = true) (hlive : liveAll st) :
    handleSubmit (some b) st =
      ({ status := 201, headers := [("Content-Type", "application/json")],
         body := .json (submissionJson (submittedRecord st.nextId b st.now)) },
       { st with
           kv := kvSet st.kv st.nextId (submittedRecord st.nextId b st.now),
           nextId := st.nextId + 1,
           buffers := deliverList
             (sseFrame (jsonRender (submissionJson (submittedRecord st.nextId b st.now))))
             st.clients st.buffers }) := by
  obtain ⟨fields, e, rfl, hf, he⟩ := validBody_iff.mp hb
  have hemb : embedOf (JSValue.obj fields) = e := by
    simp [embedOf, getProp, hf, JSValue.asString]
  simp only [handleSubmit, handleSubmitTry, getProp, hf, Option.getD_some]
  rw [show (!(JSValue.str e).truthy || !(JSValue.str e).isString) = false by
    simp [JSValue.truthy, JSValue.isString, he]]
  simp only [Bool.false_eq_true, if_false, submittedRecord, creatorOf, getProp, hemb,
    JSValue.asString]
  cases hcr : lookupField fields "creator" with
  | none =>
    simp only [hcr, broadcastNewSketch]
    rw [broadcastLoop_ok hlive]
  | some v =>
    simp only [hcr, broadcastNewSketch]
    rw [broadcastLoop_ok hlive]

theorem broadcastNewSketch_shape_ok {m : String} {st s : ServerState}
    (h : broadcastNewSketch m st = .ok s) :
    ∃ bufs, s = { st with buffers := bufs } := by
  unfold broadcastNewSketch at h
  cases hl : broadcastLoop st.closed (sseFrame m) st.clients st.buffers with
  | ok bufs =>
    rw [hl] at h
    simp only [Except.ok.injEq] at h
    exact ⟨bufs, h.symm⟩
  | error bufs =>
    rw [hl] at h
    simp at h

theorem broadcastNewSketch_shape_error {m : String} {st s : ServerState}
    (h : broadcastNewSketch m st = .error s) :
    ∃ bufs, s = { st with buffers := bufs } := by
  unfold broadcastNewSketch at h
  cases hl : broadcastLoop st.closed (sseFrame m) st.clients st.buffers with
  | ok bufs =>
    rw [hl] at h
    simp at h
  | error bufs =>
    rw [hl] at h
    simp only [Except.error.injEq] at h
    exact ⟨bufs, h.symm⟩

/-- Whatever the request, `handleSubmit` only ever writes the `kv`,
`nextId` and `buffers` fields of the state: the connection registry, the
closed set, the cancel log and the controller counter are untouched. -/
theorem handleSubmit_shape (p : Option JSValue) (st : ServerState) :
    ∃ kv n bufs, (handleSubmit p st).2 =
      { st with kv := kv, nextId := n, buffers := bufs } := by
  unfold handleSubmit handleSubmitTry
  cases p with
  | none => exact ⟨st.kv, st.nextId, st.buffers, rfl⟩
  | some data =>
    cases data with
    | null => exact ⟨st.kv, st.nextId, st.buffers, rfl⟩
    | bool bb => exact ⟨st.kv, st.nextId, st.buffers, rfl⟩
    | num n => exact ⟨st.kv, st.nextId, st.buffers, rfl⟩
    | str s => exact ⟨st.kv, st.nextId, st.buffers, rfl⟩
    | arr xs => exact ⟨st.kv, st.nextId, st.buffers, rfl⟩
    | obj fields =>
      simp only [getProp]
      split
      · rename_i r heq
        split at heq
        · simp only [Except.ok.injEq] at heq
          exact ⟨st.kv, st.nextId, st.buffers, by rw [← heq]⟩
        · split at heq
          · simp at heq
          · rename_i st3 heq2
            obtain ⟨bufs, rfl⟩ := broadcastNewSketch_shape_ok heq2
            simp only [Except.ok.injEq] at heq
            exact ⟨_, _, bufs, by rw [← heq]⟩
      · rename_i st' heq
        split at heq
        · simp at heq
        · split at heq
          · rename_i st3 heq2
            obtain ⟨bufs, rfl⟩ := broadcastNewSketch_shape_error heq2
            simp only [Except.error.injEq] at heq
            exact ⟨_, _, bufs, by rw [← heq]⟩
          · simp at heq

/-- JSON bodies `POST /submit` must reject per the claim: the parsed body
lacks an `embed` field (including bodies on which the property access
itself throws), has a non-string `embed`, or has an empty-string
`embed`. -/
def badEmbedBody (b : JSValue) : Bool :=
  match getProp b "embed" with
  | .error _ => true
  | .ok none => true
  | .ok (some v) =>
    match v with
    | .str s => s == ""
    | _ => true

theorem badEmbedBody_eq_not_validBody (b : JSValue) :
    badEmbedBody b = !validBody b := by
  cases b with
  | null => rfl
  | bool bb => rfl
  | num n => rfl
  | str s => rfl
  | arr xs => rfl
  | obj fields =>
    cases hv : lookupField fields "embed" with
    | none =>
      simp [badEmbedBody, validBody, getProp, hv]
    | some v =>
      cases v <;>
        simp [badEmbedBody, validBody, getProp, hv, JSValue.truthy, JSValue.isString,
          bne, Bool.not_not]

/-- A rejected submission: 400 response and the state returned exactly as
it was (nothing persisted, nothing broadcast). -/
theorem handleSubmit_invalid (st : ServerState) (b : JSValue)
    (hb : validBody b = false) :
    (handleSubmit (some b) st).1.status = 400 ∧ (handleSubmit (some b) st).2 = st := by
  cases b with
  | null => exact ⟨rfl, rfl⟩
  | bool bb => exact ⟨rfl, rfl⟩
  | num n => exact ⟨rfl, rfl⟩
  | str s => exact ⟨rfl, rfl⟩
  | arr xs => exact ⟨rfl, rfl⟩
  | obj fields =>
    cases hv : lookupField fields "embed" with
    | none =>
      constructor <;>
        simp [handleSubmit, handleSubmitTry, getProp, hv, JSValue.truthy, errorResponse]
    | some v =>
      have hb' : (v.truthy && v.isString) = false := by
        rw [validBody, hv] at hb; simpa using hb
      have hcond : (!v.truthy || !v.isString) = true := by
        rw [← Bool.not_and, hb']; rfl
      constructor <;>
        simp [handleSubmit, handleSubmitTry, getProp, hv, hcond, errorResponse]

/-- A valid submission always persists the record and bumps the id
counter, whether or not the broadcast throws (the `kv.set` happens before
the broadcast, and the catch does not roll it back). -/
theorem handleSubmit_valid_state (st : ServerState) (b : JSValue)
    (hb : validBody b = true) :
    ∃ bufs, (handleSubmit (some b) st).2 =
      { st with kv := kvSet st.kv st.nextId (submittedRecord st.nextId b st.now),
                nextId := st.nextId + 1, buffers := bufs } := by
  obtain ⟨fields, e, rfl, hf, he⟩ := validBody_iff.mp hb
  have hemb : embedOf (JSValue.obj fields) = e := by
    simp [embedOf, getProp, hf, JSValue.asString]
  simp only [handleSubmit, handleSubmitTry, getProp, hf, Option.getD_some]
  rw [show (!(JSValue.str e).truthy || !(JSValue.str e).isString) = false by
    simp [JSValue.truthy, JSValue.isString, he]]
  simp only [Bool.false_eq_true, if_false, submittedRecord, creatorOf, getProp, hemb,
    JSValue.asString]
  cases hcr : lookupField fields "creator" with
  | none =>
    simp only [hcr]
    split
    · rename_i r heq
      split at heq
      · simp at heq
      · rename_i st3 heq2
        obtain ⟨bufs, rfl⟩ := broadcastNewSketch_shape_ok heq2
        simp only [Except.ok.injEq] at heq
        exact ⟨bufs, by rw [← heq]⟩
    · rename_i st' heq
      split at heq
      · rename_i st3 heq2
        obtain ⟨bufs, rfl⟩ := broadcastNewSketch_shape_error heq2
        simp only [Except.error.injEq] at heq
        exact ⟨bufs, by rw [← heq]⟩
      · simp at heq
  | some v =>
    simp only [hcr]
    split
    · rename_i r heq
      split at heq
      · simp at heq
      · rename_i st3 heq2
        obtain ⟨bufs, rfl⟩ := broadcastNewSketch_shape_ok heq2
        simp only [Except.ok.injEq] at heq
        exact ⟨bufs, by rw [← heq]⟩
    · rename_i st' heq
      split at heq
      · rename_i st3 heq2
        obtain ⟨bufs, rfl⟩ := broadcastNewSketch_shape_error heq2
        simp only [Except.error.injEq] at heq
        exact ⟨bufs, by rw [← heq]⟩
      · simp at heq

/-- Full case analysis of the state `handleSubmit` leaves behind. -/
theorem handleSubmit_state (p : Option JSValue) (st : ServerState) :
    (handleSubmit p st).2 = st ∨
    ∃ b bufs, p = some b ∧ validBody b = true ∧
      (handleSubmit p st).2 =
        { st with kv := kvSet st.kv st.nextId (submittedRecord st.nextId b st.now),
                  nextId := st.nextId + 1, buffers := bufs } := by
  cases p with
  | none => exact Or.inl rfl
  | some b =>
    cases hvb : validBody b with
    | false => exact Or.inl (handleSubmit_invalid st b hvb).2
    | true =>
      obtain ⟨bufs, h⟩ := handleSubmit_valid_state st b hvb
      exact Or.inr ⟨b, bufs, rfl, hvb, h⟩

theorem mem_setAdd {x c : Nat} {s : List Nat} :
    x ∈ setAdd c s ↔ x ∈ s ∨ x = c := by
  unfold setAdd
  by_cases hc : c ∈ s
  · rw [if_pos hc]
    constructor
    · exact Or.inl
    · rintro (hx | rfl)
      · exact hx
      · exact hc
  · rw [if_neg hc]
    simp [List.mem_append]

/-! ## Invariant preservation along server runs -/

theorem wf_init : WF initState := by
  refine ⟨?_, ?_, ?_, ?_, ?_⟩ <;> simp [initState]

theorem wf_step {st : ServerState} {e : Event} (hwf : WF st) (hv : validEvent st e) :
    WF (stepEvent st e) := by
  cases e with
  | connect =>
    have hnc : st.nextController ∉ st.clients := fun hmem =>
      absurd (hwf.clients_lt _ hmem) (by omega)
    show WF { st with clients := setAdd st.nextController st.clients,
                      nextController := st.nextController + 1 }
    refine ⟨?_, ?_, ?_, ?_, hwf.kv_lt⟩
    · show (setAdd st.nextController st.clients).Nodup
      unfold setAdd
      rw [if_neg hnc, List.nodup_append]
      refine ⟨hwf.clients_nodup, List.nodup_singleton _, ?_⟩
      intro a ha hb
      rw [List.mem_singleton] at hb
      exact hnc (hb ▸ ha)
    · intro c hc
      show c < st.nextController + 1
      rcases mem_setAdd.mp hc with hmem | rfl
      · have := hwf.clients_lt c hmem
        omega
      · omega
    · intro c hc
      have := hwf.closed_lt c hc
      show c < st.nextController + 1
      omega
    · intro c hc
      show st.closed c = false
      rcases mem_setAdd.mp hc with hmem | rfl
      · exact hwf.clients_live c hmem
      · cases hcl : st.closed st.nextController with
        | false => rfl
        | true => exact absurd (hwf.closed_lt _ hcl) (by omega)
  | disconnect h =>
    show WF { st with clients := setDelete h st.clients,
                      cancelled := h :: st.cancelled,
                      closed := fun x => if x = h then true else st.closed x }
    refine ⟨?_, ?_, ?_, ?_, hwf.kv_lt⟩
    · exact hwf.clients_nodup.erase h
    · intro c hc
      exact hwf.clients_lt c (List.mem_of_mem_erase hc)
    · intro c hc
      show c < st.nextController
      by_cases hch : c = h
      · exact hch ▸ hv.1
      · refine hwf.closed_lt c ?_
        simpa [hch] using hc
    · intro c hc
      have hne : c ≠ h ∧ c ∈ st.clients :=
        (List.Nodup.mem_erase_iff hwf.clients_nodup).mp hc
      show (if c = h then true else st.closed c) = false
      rw [if_neg hne.1]
      exact hwf.clients_live c hne.2
  | submit p t =>
    rcases handleSubmit_state p { st with now := t } with hst | ⟨b, bufs, _, _, hst⟩
    · show WF (handleSubmit p { st with now := t }).2
      rw [hst]
      exact ⟨hwf.clients_nodup, hwf.clients_lt, hwf.closed_lt, hwf.clients_live, hwf.kv_lt⟩
    · show WF (handleSubmit p { st with now := t }).2
      rw [hst]
      refine ⟨hwf.clients_nodup, hwf.clients_lt, hwf.closed_lt, hwf.clients_live, ?_⟩
      intro q hq
      show q.1 < st.nextId + 1
      rcases mem_kvSet hq with h1 | h1
      · have h1' : q.1 = st.nextId := h1
        omega
      · have h1' : q ∈ st.kv := h1
        have := hwf.kv_lt q h1'
        omega

theorem wf_runTrace {st : ServerState} :
    ∀ {tr : List Event}, WF st → ValidTrace st tr → WF (runTrace st tr) := by
  intro tr
  induction tr generalizing st with
  | nil => exact fun hwf _ => hwf
  | cons e es ih => exact fun hwf hv => ih (wf_step hwf hv.1) hv.2

/-- Every state the server actually reaches keeps all registered
connections live: the moment a stream closes, its `cancel` callback has
already deleted the controller from the set. -/
theorem reachable_liveAll {tr : List Event} (hv : ValidTrace initState tr) :
    liveAll (runTrace initState tr) :=
  (wf_runTrace wf_init hv).clients_live

theorem cancelled_mono {st : ServerState} {c : Nat} (e : Event)
    (hc : c ∈ st.cancelled) : c ∈ (stepEvent st e).cancelled := by
  cases e with
  | connect => exact hc
  | disconnect h => exact List.mem_cons_of_mem _ hc
  | submit p t =>
    rcases handleSubmit_state p { st with now := t } with h | ⟨b, bufs, _, _, h⟩ <;>
      · show c ∈ (handleSubmit p { st with now := t }).2.cancelled
        rw [h]
        exact hc

/-- Along a valid trace, a stream's `cancel` callback fires at most once:
once a controller is in the cancel log no further `disconnect` for it is
possible. -/
theorem validTrace_disconnectCount {h : Nat} :
    ∀ {tr : List Event} {st : ServerState}, ValidTrace st tr →
      (h ∈ st.cancelled → disconnectCount h tr = 0) ∧ disconnectCount h tr ≤ 1 := by
  intro tr
  induction tr with
  | nil => exact fun _ => ⟨fun _ => rfl, by simp [disconnectCount]⟩
  | cons e es ih =>
    intro st hv
    obtain ⟨hve, hvt⟩ := hv
    obtain ⟨ih0, ih1⟩ := ih hvt
    cases e with
    | connect =>
      exact ⟨fun hc => ih0 (cancelled_mono _ hc), by simpa [disconnectCount] using ih1⟩
    | submit p t =>
      exact ⟨fun hc => ih0 (cancelled_mono _ hc), by simpa [disconnectCount] using ih1⟩
    | disconnect h2 =>
      by_cases hh : h2 = h
      · subst hh
        have hc' : h2 ∈ (stepEvent st (.disconnect h2)).cancelled :=
          List.mem_cons_self _ _
        have h0 := ih0 hc'
        constructor
        · intro hc
          exact absurd hc hve.2
        · simp [disconnectCount, h0]
      · constructor
        · intro hc
          have : h ∈ (stepEvent st (.disconnect h2)).cancelled :=
            List.mem_cons_of_mem _ hc
          simp [disconnectCount, hh, ih0 this]
        · simpa [disconnectCount, hh] using ih1

theorem disconnectCount_pos {h : Nat} :
    ∀ {tr : List Event}, Event.disconnect h ∈ tr → 1 ≤ disconnectCount h tr := by
  intro tr
  induction tr with
  | nil => intro hc; cases hc
  | cons e es ih =>
    intro hc
    rcases List.mem_cons.mp hc with rfl | hmem
    · simp [disconnectCount]
    · cases e with
      | connect => simpa [disconnectCount] using ih hmem
      | submit p t => simpa [disconnectCount] using ih hmem
      | disconnect h2 =>
        have := ih hmem
        by_cases hh : h2 = h
        · simp [disconnectCount, hh]
        · simp only [disconnectCount, hh, if_false]
          omega

/-- Once a controller is out of the set and its handle is in the past of
the handle counter, no later events ever put it back. -/
theorem not_in_clients_run {h : Nat} :
    ∀ {tr : List Event} {st : ServerState},
      h ∉ st.clients → h < st.nextController →
      h ∉ (runTrace st tr).clients ∧ h < (runTrace st tr).nextController := by
  intro tr
  induction tr with
  | nil => exact fun h1 h2 => ⟨h1, h2⟩
  | cons e es ih =>
    intro st h1 h2
    refine ih ?_ ?_
    · cases e with
      | connect =>
        intro hc
        rcases mem_setAdd.mp hc with hmem | rfl
        · exact h1 hmem
        · exact absurd h2 (by omega)
      | disconnect h3 =>
        intro hc
        exact h1 (List.mem_of_mem_erase hc)
      | submit p t =>
        rcases handleSubmit_state p { st with now := t } with hst | ⟨b, bufs, _, _, hst⟩ <;>
          · show h ∉ (handleSubmit p { st with now := t }).2.clients
            rw [hst]
            exact h1
    · cases e with
      | connect =>
        show h < st.nextController + 1
        omega
      | disconnect h3 => exact h2
      | submit p t =>
        rcases handleSubmit_state p { st with now := t } with hst | ⟨b, bufs, _, _, hst⟩ <;>
          · show h < (handleSubmit p { st with now := t }).2.nextController
            rw [hst]
            exact h2

theorem runTrace_append (xs ys : List Event) :
    ∀ st, runTrace st (xs ++ ys) = runTrace (runTrace st xs) ys := by
  induction xs with
  | nil => intro st; rfl
  | cons e es ih => intro st; exact ih (stepEvent st e)

theorem validTrace_append {xs ys : List Event} :
    ∀ {st : ServerState}, ValidTrace st (xs ++ ys) →
      ValidTrace st xs ∧ ValidTrace (runTrace st xs) ys := by
  induction xs with
  | nil => exact fun hv => ⟨trivial, hv⟩
  | cons e es ih =>
    intro st hv
    obtain ⟨h1, h2⟩ := ih hv.2
    exact ⟨⟨hv.1, h1⟩, h2⟩

instance : IsTotal Submission newerEq :=
  ⟨fun a b => le_total b.timestamp a.timestamp⟩

instance : IsTrans Submission newerEq :=
  ⟨fun _ _ _ hab hbc => le_trans hbc hab⟩

/-- Running a sequence of valid submissions appends exactly one record per
submission to the store, with consecutive fresh ids — whatever happens on
the broadcast side. -/
theorem runSubmits_kv :
    ∀ {inputs : List (JSValue × Nat)} {st : ServerState},
      (∀ p ∈ inputs, validBody p.1 = true) →
      (∀ q ∈ st.kv, q.1 < st.nextId) →
      (runSubmits inputs st).kv =
        st.kv ++ (recordsFrom st.nextId inputs).map (fun s => (s.id, s)) ∧
      (runSubmits inputs st).nextId = st.nextId + inputs.length := by
  intro inputs
  induction inputs with
  | nil =>
    intro st _ _
    simp [runSubmits, recordsFrom]
  | cons pt rest ih =>
    intro st hval hlt
    obtain ⟨b, t⟩ := pt
    have hvb : validBody b = true := hval (b, t) (List.mem_cons_self _ _)
    obtain ⟨bufs, hst⟩ := handleSubmit_valid_state { st with now := t } b hvb
    have hkv1 : kvSet st.kv st.nextId (submittedRecord st.nextId b t) =
        st.kv ++ [(st.nextId, submittedRecord st.nextId b t)] := kvSet_append hlt
    have hrec : ∀ q ∈ (handleSubmit (some b) { st with now := t }).2.kv,
        q.1 < (handleSubmit (some b) { st with now := t }).2.nextId := by
      rw [hst]
      intro q hq
      show q.1 < st.nextId + 1
      rcases mem_kvSet hq with h1 | h1
      · have h1' : q.1 = st.nextId := h1
        omega
      · have h1' : q ∈ st.kv := h1
        have := hlt q h1'
        omega
    obtain ⟨ihkv, ihn⟩ := ih (fun p hp => hval p (List.mem_cons_of_mem _ hp)) hrec
    constructor
    · show (runSubmits rest (handleSubmit (some b) { st with now := t }).2).kv = _
      rw [ihkv, hst]
      show kvSet st.kv st.nextId (submittedRecord st.nextId b t) ++ _ = _
      rw [hkv1, List.append_assoc]
      show _ = st.kv ++ (recordsFrom st.nextId ((b, t) :: rest)).map (fun s => (s.id, s))
      rw [recordsFrom]
      simp [submittedRecord]
    · show (runSubmits rest (handleSubmit (some b) { st with now := t }).2).nextId = _
      rw [ihn, hst]
      show st.nextId + 1 + rest.length = st.nextId + ((b, t) :: rest).length
      simp
      omega

theorem setAdd_nodup {c : Nat} {s : List Nat} (h : s.Nodup) : (setAdd c s).Nodup := by
  by_cases hc : c ∈ s
  · rw [setAdd, if_pos hc]
    exact h
  · rw [setAdd, if_neg hc, List.nodup_append]
    refine ⟨h, List.nodup_singleton _, ?_⟩
    intro a ha hb
    rw [List.mem_singleton] at hb
    exact hc (hb ▸ ha)

/-- The `"id"` (or other) field of a JSON-object response body. -/
def responseField (r : Response) (k : String) : Option JSValue :=
  match r.body with
  | .json (.obj fields) => lookupField fields k
  | _ => none

/-! ## The claims -/

/-- C5: for every `POST /submit` whose body is not parsable as JSON, the
handler returns a 400 response whose body is a JSON object with a string
`error` field, leaves the state untouched, and — being a total function —
returns a `Response` rather than crashing the server. -/
theorem c5_unparsable_body_yields_400 (st : ServerState) :
    (handleSubmit none st).1.status = 400 ∧
    (handleSubmit none st).1.body =
      .json (.obj [("error", .str "Invalid JSON or server error.")]) ∧
    responseField (handleSubmit none st).1 "error" =
      some (.str "Invalid JSON or server error.") ∧
    (handleSubmit none st).2 = st :=
  ⟨rfl, rfl, rfl, rfl⟩

/-- C4: for every `POST /submit` whose parsed body lacks the `embed`
field, has a non-string `embed`, or has an empty-string `embed`, the
response has status 400 and the key-value store (indeed the whole state)
is unchanged. -/
theorem c4_bad_embed_rejected (st : ServerState) (b : JSValue)
    (hb : badEmbedBody b = true) :
    (handleSubmit (some b) st).1.status = 400 ∧
    (handleSubmit (some b) st).2.kv = st.kv ∧
    (handleSubmit (some b) st).2 = st := by
  have h := badEmbedBody_eq_not_validBody b
  rw [hb] at h
  have hvb : validBody b = false := by
    cases hv : validBody b
    · rfl
    · rw [hv] at h
      simp at h
  obtain ⟨h1, h2⟩ := handleSubmit_invalid st b hvb
  exact ⟨h1, by rw [h2], h2⟩

theorem c4_witness :
    badEmbedBody (.obj [("embed", .str "")]) = true ∧
    (handleSubmit (some (.obj [("embed", .str "")])) initState).1.status = 400 ∧
    (handleSubmit (some (.obj [("embed", .str "")])) initState).2.kv = initState.kv ∧
    (handleSubmit (some (.obj [("embed", .str "")])) initState).2 = initState :=
  ⟨by decide, c4_bad_embed_rejected initState (.obj [("embed", .str "")]) (by decide)⟩

/-- C6: the registry's active set has mathematical-set semantics keyed by
handle identity: registering a handle twice equals registering it once
(and a broadcast then still delivers exactly one frame to it), and
unregistering an absent handle is a no-op, not an error. -/
theorem c6_registry_set_semantics (c : Nat) (s : List Nat) (hnd : s.Nodup)
    (closed : Nat → Bool) (bufs : Nat → List String) (f : String)
    (hlive : ∀ x ∈ setAdd c (setAdd c s), closed x = false) :
    setAdd c (setAdd c s) = setAdd c s ∧
    (c ∉ s → setDelete c s = s) ∧
    broadcastLoop closed f (setAdd c (setAdd c s)) bufs =
      .ok (deliverList f (setAdd c (setAdd c s)) bufs) ∧
    deliverList f (setAdd c (setAdd c s)) bufs c = bufs c ++ [f] := by
  have hmem : c ∈ setAdd c s := mem_setAdd.mpr (Or.inr rfl)
  have hidem : setAdd c (setAdd c s) = setAdd c s := by
    show (if c ∈ setAdd c s then setAdd c s else setAdd c s ++ [c]) = setAdd c s
    rw [if_pos hmem]
  refine ⟨hidem, fun hc => List.erase_of_not_mem hc, broadcastLoop_ok hlive, ?_⟩
  rw [hidem]
  exact deliverList_mem (setAdd_nodup hnd) hmem

theorem c6_witness :
    ([1] : List Nat).Nodup ∧
    (setAdd 0 (setAdd 0 [1]) = setAdd 0 [1] ∧
     ((0 : Nat) ∉ ([1] : List Nat) → setDelete 0 [1] = [1]) ∧
     broadcastLoop (fun _ => false) "m" (setAdd 0 (setAdd 0 [1])) (fun _ => []) =
       .ok (deliverList "m" (setAdd 0 (setAdd 0 [1])) (fun _ => [])) ∧
     deliverList "m" (setAdd 0 (setAdd 0 [1])) (fun _ => []) 0 = (fun _ => ([] : List String)) 0 ++ ["m"]) :=
  ⟨by decide,
   c6_registry_set_semantics 0 [1] (by decide) (fun _ => false) (fun _ => []) "m"
     (fun x _ => rfl)⟩

/-- C8: every `GET /events` response has status 200 with the
`text/event-stream`, `no-cache`, `keep-alive` headers and an open stream
body, and every message later broadcast to a registered live connection
is written as the single frame `data: ` ++ payload ++ `"\n\n"`. -/
theorem c8_events_response_and_framing (st : ServerState) :
    ((handleSSE st).1.status = 200 ∧
     (handleSSE st).1.headers =
       [("Content-Type", "text/event-stream"), ("Cache-Control", "no-cache"),
        ("Connection", "keep-alive")] ∧
     (handleSSE st).1.body = .stream st.nextController ∧
     st.nextController ∈ (handleSSE st).2.clients) ∧
    (∀ (st₁ : ServerState) (m : String) (c : Nat),
      st₁.clients.Nodup → liveAll st₁ → c ∈ st₁.clients →
      ∃ st₂, broadcastNewSketch m st₁ = .ok st₂ ∧
        st₂.buffers c = st₁.buffers c ++ ["data: " ++ m ++ "\n\n"]) := by
  constructor
  · exact ⟨rfl, rfl, rfl, mem_setAdd.mpr (Or.inr rfl)⟩
  · intro st₁ m c hnd hlive hc
    refine ⟨_, broadcastNewSketch_ok hlive, ?_⟩
    show deliverList (sseFrame m) st₁.clients st₁.buffers c = _
    rw [deliverList_mem hnd hc]
    rfl

theorem c8_witness :
    ((handleSSE initState).2.clients.Nodup ∧ liveAll (handleSSE initState).2 ∧
      (0 : Nat) ∈ (handleSSE initState).2.clients) ∧
    ∃ st₂, broadcastNewSketch "hello" (handleSSE initState).2 = .ok st₂ ∧
      st₂.buffers 0 = (handleSSE initState).2.buffers 0 ++ ["data: " ++ "hello" ++ "\n\n"] :=
  ⟨⟨by decide, fun c hc => rfl, by decide⟩,
   (c8_events_response_and_framing initState).2 (handleSSE initState).2 "hello" 0
     (by decide) (fun c hc => rfl) (by decide)⟩

/-- C9: a `GET` request whose path starts with `/static/` is routed to the
static file server: an existing file is answered 200 with the file's
bytes and a content type chosen by the path's extension (`.css` ↦
`text/css`, anything else ↦ `text/plain`); a missing file is answered
404. -/
theorem c9_static_files (fs : String → Option String) (req : Request) (st : ServerState)
    (hp : jsStartsWith req.path "/static/" = true) :
    (∀ content, fs ("." ++ req.path) = some content →
      handler fs req st =
        ({ status := 200,
           headers := [("Content-Type",
             if jsEndsWith req.path ".css" then "text/css" else "text/plain")],
           body := .text content }, st)) ∧
    (fs ("." ++ req.path) = none →
      handler fs req st =
        ({ status := 404, headers := [], body := .text "Not Found" }, st)) := by
  have h1 : ¬(req.path = "/submit" ∧ req.method = "POST") := by
    rintro ⟨hep, -⟩
    rw [hep] at hp
    exact absurd hp (by decide)
  have h2 : ¬(req.path = "/sketches" ∧ req.method = "GET") := by
    rintro ⟨hep, -⟩
    rw [hep] at hp
    exact absurd hp (by decide)
  have h3 : ¬(req.path = "/events" ∧ req.method = "GET") := by
    rintro ⟨hep, -⟩
    rw [hep] at hp
    exact absurd hp (by decide)
  constructor
  · intro content hc
    simp only [handler, if_neg h1, if_neg h2, if_neg h3, hp, if_true, serveStatic, hc]
  · intro hc
    simp only [handler, if_neg h1, if_neg h2, if_neg h3, hp, if_true, serveStatic, hc]

theorem c9_witness :
    (jsStartsWith "/static/app.css" "/static/" = true) ∧
    handler (fun p => if p = "./static/app.css" then some "body" else none)
        { method := "GET", path := "/static/app.css", parsedBody := none } initState =
      ({ status := 200,
         headers := [("Content-Type",
           if jsEndsWith "/static/app.css" ".css" then "text/css" else "text/plain")],
         body := .text "body" }, initState) :=
  ⟨by decide,
   (c9_static_files (fun p => if p = "./static/app.css" then some "body" else none)
      { method := "GET", path := "/static/app.css", parsedBody := none } initState
      (by decide)).1 "body" (by decide)⟩

/-- C10: `handleSubmit` applies no type validation to `creator`: with a
valid `embed`, a truthy `creator` of any JS type is persisted and
returned verbatim, and a falsy or absent `creator` is stored as `null`. -/
theorem c10_creator_truthiness (st : ServerState) (fields : List (String × JSValue))
    (e : String) (hemb : lookupField fields "embed" = some (.str e)) (he : e ≠ "")
    (hlive : liveAll st) :
    (handleSubmit (some (.obj fields)) st).1.status = 201 ∧
    (handleSubmit (some (.obj fields)) st).1.body =
      .json (submissionJson (submittedRecord st.nextId (.obj fields) st.now)) ∧
    (handleSubmit (some (.obj fields)) st).2.kv =
      kvSet st.kv st.nextId (submittedRecord st.nextId (.obj fields) st.now) ∧
    (∀ v, lookupField fields "creator" = some v → v.truthy = true →
      (submittedRecord st.nextId (.obj fields) st.now).creator = v) ∧
    (∀ v, lookupField fields "creator" = some v → v.truthy = false →
      (submittedRecord st.nextId (.obj fields) st.now).creator = .null) ∧
    (lookupField fields "creator" = none →
      (submittedRecord st.nextId (.obj fields) st.now).creator = .null) := by
  have hb : validBody (.obj fields) = true :=
    validBody_iff.mpr ⟨fields, e, rfl, hemb, he⟩
  have h1 := handleSubmit_valid st (.obj fields) hb hlive
  refine ⟨by rw [h1], by rw [h1], by rw [h1], ?_, ?_, ?_⟩
  · intro v hv htr
    simp [submittedRecord, creatorOf, getProp, hv, htr]
  · intro v hv htr
    simp [submittedRecord, creatorOf, getProp, hv, htr]
  · intro hv
    simp [submittedRecord, creatorOf, getProp, hv]

theorem c10_witness :
    (lookupField [("embed", .str "x"), ("creator", .num 7)] "embed" = some (.str "x")) ∧
    (handleSubmit (some (.obj [("embed", .str "x"), ("creator", .num 7)])) initState).1.status
      = 201 ∧
    (submittedRecord 0 (.obj [("embed", .str "x"), ("creator", .num 7)]) 0).creator
      = .num 7 :=
  ⟨rfl,
   (c10_creator_truthiness initState [("embed", .str "x"), ("creator", .num 7)] "x"
      rfl (by decide) (fun c hc => absurd hc (List.not_mem_nil c))).1,
   (c10_creator_truthiness initState [("embed", .str "x"), ("creator", .num 7)] "x"
      rfl (by decide) (fun c hc => absurd hc (List.not_mem_nil c))).2.2.2.1
     (.num 7) rfl rfl⟩

/-- C7: along any valid run, a connection's `cancel` callback — the only
place `sseClients.delete` runs for it — fires at most once; when the
client does disconnect it fires exactly once, and from that point on the
controller is out of the active set in every later state (it is never
re-added: new connections always get a fresh controller). -/
theorem c7_disconnect_unregisters_exactly_once (tr : List Event) (h : Nat)
    (hv : ValidTrace initState tr) :
    disconnectCount h tr ≤ 1 ∧
    (Event.disconnect h ∈ tr →
      disconnectCount h tr = 1 ∧
      ∀ pre post, tr = pre ++ post → Event.disconnect h ∈ pre →
        h ∉ (runTrace initState pre).clients) := by
  refine ⟨(validTrace_disconnectCount hv).2, fun hmem => ⟨?_, ?_⟩⟩
  · exact le_antisymm (validTrace_disconnectCount hv).2 (disconnectCount_pos hmem)
  · rintro pre post rfl hpre
    obtain ⟨p1, p2, rfl⟩ := List.append_of_mem hpre
    have hv1 : ValidTrace initState ((p1 ++ Event.disconnect h :: p2) ++ post) := hv
    have hvpre : ValidTrace initState (p1 ++ Event.disconnect h :: p2) :=
      (validTrace_append hv1).1
    obtain ⟨hvp1, hvrest⟩ := validTrace_append hvpre
    obtain ⟨hde, hvp2⟩ := hvrest
    have hwf1 : WF (runTrace initState p1) := wf_runTrace wf_init hvp1
    have hnotmem :
        h ∉ (stepEvent (runTrace initState p1) (Event.disconnect h)).clients := by
      intro hmem2
      have : h ≠ h ∧ h ∈ (runTrace initState p1).clients :=
        (List.Nodup.mem_erase_iff hwf1.clients_nodup).mp hmem2
      exact this.1 rfl
    have hlt :
        h < (stepEvent (runTrace initState p1) (Event.disconnect h)).nextController :=
      hde.1
    have hfinal := @not_in_clients_run h p2 _ hnotmem hlt
    rw [runTrace_append]
    show h ∉ (runTrace (runTrace initState p1) (Event.disconnect h :: p2)).clients
    exact hfinal.1

theorem c7_witness :
    disconnectCount 0 [Event.connect, Event.disconnect 0] ≤ 1 ∧
    disconnectCount 0 [Event.connect, Event.disconnect 0] = 1 ∧
    (0 : Nat) ∉ (runTrace initState [Event.connect, Event.disconnect 0]).clients :=
  have hv : ValidTrace initState [Event.connect, Event.disconnect 0] :=
    ⟨trivial, ⟨by decide, by decide⟩, trivial⟩
  have hmem : Event.disconnect 0 ∈ [Event.connect, Event.disconnect 0] :=
    List.mem_cons_of_mem _ (List.mem_cons_self _ _)
  ⟨(c7_disconnect_unregisters_exactly_once [Event.connect, Event.disconnect 0] 0 hv).1,
   ((c7_disconnect_unregisters_exactly_once [Event.connect, Event.disconnect 0] 0 hv).2
      hmem).1,
   ((c7_disconnect_unregisters_exactly_once [Event.connect, Event.disconnect 0] 0 hv).2
      hmem).2 [Event.connect, Event.disconnect 0] [] (by simp) hmem⟩

theorem nextId_le_step (st : ServerState) (e : Event) :
    st.nextId ≤ (stepEvent st e).nextId := by
  cases e with
  | connect => exact le_refl _
  | disconnect h => exact le_refl _
  | submit p t =>
    rcases handleSubmit_state p { st with now := t } with hst | ⟨b, bufs, _, _, hst⟩
    · show st.nextId ≤ (handleSubmit p { st with now := t }).2.nextId
      rw [hst]
    · show st.nextId ≤ (handleSubmit p { st with now := t }).2.nextId
      rw [hst]
      show st.nextId ≤ st.nextId + 1
      omega

theorem nextId_le_run (tr : List Event) :
    ∀ st : ServerState, st.nextId ≤ (runTrace st tr).nextId := by
  induction tr with
  | nil => exact fun _ => le_refl _
  | cons e es ih => exact fun st => le_trans (nextId_le_step st e) (ih _)

/-- C2: a `POST /submit` whose body is a JSON object with a non-empty
string `embed` gets a 201 response whose `embed` equals the input
`embed`, whose `creator` is `null` when the `creator` field is omitted,
and whose `id` is the fresh generator draw — distinct from the id of any
other submission, earlier or later in the same run. -/
theorem c2_valid_submission_contract (st : ServerState) (b : JSValue)
    (hlive : liveAll st) (hb : validBody b = true) :
    (handleSubmit (some b) st).1.status = 201 ∧
    (∀ fields e, b = .obj fields → lookupField fields "embed" = some (.str e) →
      responseField (handleSubmit (some b) st).1 "embed" = some (.str e)) ∧
    (getProp b "creator" = .ok none →
      responseField (handleSubmit (some b) st).1 "creator" = some .null) ∧
    responseField (handleSubmit (some b) st).1 "id" = some (.num st.nextId) ∧
    (∀ (tr : List Event) (b₂ : JSValue),
      liveAll (runTrace (handleSubmit (some b) st).2 tr) → validBody b₂ = true →
      responseField
          (handleSubmit (some b₂) (runTrace (handleSubmit (some b) st).2 tr)).1 "id" ≠
        responseField (handleSubmit (some b) st).1 "id") := by
  have h1 := handleSubmit_valid st b hb hlive
  refine ⟨by rw [h1], ?_, ?_, by rw [h1]; rfl, ?_⟩
  · rintro fields e rfl hf
    rw [h1]
    show some (JSValue.str (submittedRecord st.nextId (JSValue.obj fields) st.now).embed)
      = some (JSValue.str e)
    simp [submittedRecord, embedOf, getProp, hf, JSValue.asString]
  · intro hcr
    rw [h1]
    show some (submittedRecord st.nextId b st.now).creator = some JSValue.null
    simp [submittedRecord, creatorOf, hcr]
  · intro tr b₂ hlive₂ hb₂
    have h2 := handleSubmit_valid (runTrace (handleSubmit (some b) st).2 tr) b₂ hb₂ hlive₂
    have e1 : responseField (handleSubmit (some b) st).1 "id"
        = some (.num (st.nextId : Int)) := by
      rw [h1]; rfl
    have e2 : responseField
        (handleSubmit (some b₂) (runTrace (handleSubmit (some b) st).2 tr)).1 "id"
        = some (.num ((runTrace (handleSubmit (some b) st).2 tr).nextId : Int)) := by
      rw [h2]; rfl
    rw [e1, e2]
    have hge : st.nextId + 1 ≤ (runTrace (handleSubmit (some b) st).2 tr).nextId := by
      have hstep : (handleSubmit (some b) st).2.nextId = st.nextId + 1 := by rw [h1]
      have := nextId_le_run tr (handleSubmit (some b) st).2
      omega
    intro heq
    simp only [Option.some.injEq, JSValue.num.injEq, Int.natCast_inj] at heq
    omega

theorem c2_witness :
    validBody (.obj [("embed", .str "x")]) = true ∧
    (handleSubmit (some (.obj [("embed", .str "x")])) initState).1.status = 201 ∧
    responseField (handleSubmit (some (.obj [("embed", .str "x")])) initState).1 "id" =
      some (.num 0) ∧
    responseField (handleSubmit (some (.obj [("embed", .str "x")])) initState).1 "creator" =
      some .null :=
  ⟨by decide,
   (c2_valid_submission_contract initState (.obj [("embed", .str "x")])
      (fun c hc => absurd hc (List.not_mem_nil c)) (by decide)).1,
   (c2_valid_submission_contract initState (.obj [("embed", .str "x")])
      (fun c hc => absurd hc (List.not_mem_nil c)) (by decide)).2.2.2.1,
   (c2_valid_submission_contract initState (.obj [("embed", .str "x")])
      (fun c hc => absurd hc (List.not_mem_nil c)) (by decide)).2.2.1 rfl⟩

theorem recordsFrom_length :
    ∀ (inputs : List (JSValue × Nat)) (n : Nat),
      (recordsFrom n inputs).length = inputs.length := by
  intro inputs
  induction inputs with
  | nil => intro n; rfl
  | cons pt rest ih =>
    intro n
    obtain ⟨b, t⟩ := pt
    show (recordsFrom n ((b, t) :: rest)).length = rest.length + 1
    rw [recordsFrom]
    simp [ih (n + 1)]

/-- C3 (amended): after N successful submissions from a fresh server,
both list variants answer 200 with exactly the N submitted records, each
equal to a previously submitted payload; the sorting variant returns
them newest-first (sorted by descending timestamp), while the
non-sorting variant returns them in storage key order — some permutation
of the N records, with no newest-first guarantee.  (Which permutation
the key order yields is not asserted: the program's keys are random
UUIDs, whose order is unrelated to submission order; this run of the
model realizes one such order.) -/
theorem c3_list_behavior (inputs : List (JSValue × Nat))
    (hval : ∀ p ∈ inputs, validBody p.1 = true) :
    (handleList (runSubmits inputs initState)).status = 200 ∧
    (handleListNoSort (runSubmits inputs initState)).status = 200 ∧
    (∃ l : List Submission, (handleList (runSubmits inputs initState)).body =
        .json (.arr (l.map submissionJson)) ∧
      l.Perm (recordsFrom 0 inputs) ∧ l.length = inputs.length ∧
      List.Sorted newerEq l) ∧
    (∃ l : List Submission, (handleListNoSort (runSubmits inputs initState)).body =
        .json (.arr (l.map submissionJson)) ∧
      l.Perm (recordsFrom 0 inputs) ∧ l.length = inputs.length) ∧
    (recordsFrom 0 inputs).length = inputs.length := by
  have hkv : (runSubmits inputs initState).kv =
      (recordsFrom 0 inputs).map (fun s => (s.id, s)) := by
    have hnil : ∀ q ∈ initState.kv, q.1 < initState.nextId :=
      fun q hq => absurd hq (List.not_mem_nil q)
    have h := (runSubmits_kv hval hnil).1
    have h0 : initState.kv = [] := rfl
    have h1 : initState.nextId = 0 := rfl
    rw [h0, h1, List.nil_append] at h
    exact h
  have hvals : (runSubmits inputs initState).kv.map Prod.snd = recordsFrom 0 inputs := by
    rw [hkv, List.map_map]
    have hcomp : (Prod.snd ∘ fun s : Submission => (s.id, s)) = id := rfl
    rw [hcomp, List.map_id]
  refine ⟨rfl, rfl,
    ⟨List.insertionSort newerEq (recordsFrom 0 inputs), ?_,
     List.perm_insertionSort _ _, ?_, List.sorted_insertionSort _ _⟩,
    ⟨recordsFrom 0 inputs, ?_, List.Perm.refl _, recordsFrom_length inputs 0⟩,
    recordsFrom_length inputs 0⟩
  · show Body.json (.arr ((List.insertionSort newerEq
        ((runSubmits inputs initState).kv.map Prod.snd)).map submissionJson)) = _
    rw [hvals]
  · rw [(List.perm_insertionSort newerEq (recordsFrom 0 inputs)).length_eq,
      recordsFrom_length inputs 0]
  · show Body.json (.arr (((runSubmits inputs initState).kv.map Prod.snd).map
        submissionJson)) = _
    rw [hvals]

def c3inputs : List (JSValue × Nat) :=
  [(.obj [("embed", .str "a")], 1), (.obj [("embed", .str "b")], 2)]

/-- C3 counterexample: with two submissions at times 1 then 2 whose
storage keys happen to be ordered oldest-first (one of the possible
random-UUID key orders, and the one this model's fresh-draw ids
realize), the non-sorting `handleList` variant returns the records with
timestamps `[1, 2]` — not newest-first — so the claim that both variants
return newest-first output is false on the code. -/
theorem c3_counterexample :
    timestampsOf (handleListNoSort (runSubmits c3inputs initState)).body = [1, 2] ∧
    ¬ List.Sorted (fun a b : Int => b ≤ a)
        (timestampsOf (handleListNoSort (runSubmits c3inputs initState)).body) := by
  have ht : timestampsOf (handleListNoSort (runSubmits c3inputs initState)).body
      = [1, 2] := rfl
  refine ⟨ht, ?_⟩
  rw [ht]
  intro hs
  have h21 := (List.sorted_cons.mp hs).1 2 (List.mem_singleton.mpr rfl)
  omega

/-- When a valid submission's broadcast hits a closed connection `c`
(every connection before it in iteration order being live), the enqueue
throws: connections before `c` have the frame, the loop aborts, nobody is
removed from the set, and the exception reaches `handleSubmit`'s catch —
which answers 400 although the record was already persisted. -/
theorem handleSubmit_broadcast_fail (st : ServerState) (b : JSValue)
    (pre post : List Nat) (c : Nat)
    (hsplit : st.clients = pre ++ c :: post)
    (hpre : ∀ x ∈ pre, st.closed x = false)
    (hc : st.closed c = true)
    (hb : validBody b = true) :
    handleSubmit (some b) st =
      (errorResponse "Invalid JSON or server error.",
       { st with
           kv := kvSet st.kv st.nextId (submittedRecord st.nextId b st.now),
           nextId := st.nextId + 1,
           buffers := deliverList
             (sseFrame (jsonRender (submissionJson (submittedRecord st.nextId b st.now))))
             pre st.buffers }) := by
  obtain ⟨fields, e, rfl, hf, he⟩ := validBody_iff.mp hb
  have hemb : embedOf (JSValue.obj fields) = e := by
    simp [embedOf, getProp, hf, JSValue.asString]
  simp only [handleSubmit, handleSubmitTry, getProp, hf, Option.getD_some]
  rw [show (!(JSValue.str e).truthy || !(JSValue.str e).isString) = false by
    simp [JSValue.truthy, JSValue.isString, he]]
  simp only [Bool.false_eq_true, if_false, submittedRecord, creatorOf, getProp, hemb,
    JSValue.asString]
  cases hcr : lookupField fields "creator" with
  | none =>
    simp only [hcr, broadcastNewSketch]
    rw [hsplit, broadcastLoop_fail hc hpre]
  | some v =>
    simp only [hcr, broadcastNewSketch]
    rw [hsplit, broadcastLoop_fail hc hpre]

/-- C1 (amended): if during a broadcast the enqueue to some registered
push connection fails, the failure is NOT recovered: the offending
connection stays in the active set, delivery to the connections after it
in iteration order is aborted, and the exception propagates into the
submission handler's catch, so the triggering `POST /submit` answers 400
(not its success response) — even though the record was already
persisted. -/
theorem c1_broadcast_failure_not_recovered (st : ServerState) (b : JSValue)
    (pre post : List Nat) (c : Nat)
    (hsplit : st.clients = pre ++ c :: post)
    (hpre : ∀ x ∈ pre, st.closed x = false)
    (hc : st.closed c = true)
    (hb : validBody b = true) :
    (handleSubmit (some b) st).1.status = 400 ∧
    (handleSubmit (some b) st).2.clients = st.clients ∧
    c ∈ (handleSubmit (some b) st).2.clients ∧
    (handleSubmit (some b) st).2.kv =
      kvSet st.kv st.nextId (submittedRecord st.nextId b st.now) ∧
    (∀ x, x ∉ pre → (handleSubmit (some b) st).2.buffers x = st.buffers x) := by
  have h := handleSubmit_broadcast_fail st b pre post c hsplit hpre hc hb
  refine ⟨by rw [h]; rfl, by rw [h], ?_, by rw [h], ?_⟩
  · rw [h]
    show c ∈ st.clients
    rw [hsplit]
    exact List.mem_append.mpr (Or.inr (List.mem_cons_self _ _))
  · intro x hx
    rw [h]
    show deliverList _ pre st.buffers x = st.buffers x
    exact deliverList_not_mem hx

def c1state : ServerState :=
  { kv := [], nextId := 0, clients := [0, 1], buffers := fun _ => [],
    closed := fun x => x == 0, nextController := 2, cancelled := [0], now := 5 }

def c1body : JSValue := .obj [("embed", .str "<iframe></iframe>")]

/-- C1 counterexample: in a state with two registered connections where
the write to connection 0 fails, a valid submission is NOT answered with
its 201 success response, connection 0 is NOT removed from the active
set, and the remaining connection 1 receives nothing. -/
theorem c1_counterexample :
    (handleSubmit (some c1body) c1state).1.status ≠ 201 ∧
    (0 : Nat) ∈ (handleSubmit (some c1body) c1state).2.clients ∧
    (handleSubmit (some c1body) c1state).2.buffers 1 = [] := by
  decide

theorem c1_witness :
    validBody c1body = true ∧
    c1state.closed 0 = true ∧
    (handleSubmit (some c1body) c1state).1.status = 400 ∧
    (handleSubmit (some c1body) c1state).2.clients = c1state.clients ∧
    (0 : Nat) ∈ (handleSubmit (some c1body) c1state).2.clients ∧
    (handleSubmit (some c1body) c1state).2.kv =
      kvSet c1state.kv c1state.nextId
        (submittedRecord c1state.nextId c1body c1state.now) :=
  have h := c1_broadcast_failure_not_recovered c1state c1body [] [1] 0 rfl
    (fun x hx => absurd hx (List.not_mem_nil x)) rfl (by decide)
  ⟨by decide, rfl, h.1, h.2.1, h.2.2.1, h.2.2.2.1⟩

theorem c3_witness :
    (∀ p ∈ c3inputs, validBody p.1 = true) ∧
    (handleList (runSubmits c3inputs initState)).status = 200 ∧
    (∃ l : List Submission, (handleList (runSubmits c3inputs initState)).body =
        .json (.arr (l.map submissionJson)) ∧
      l.Perm (recordsFrom 0 c3inputs) ∧ l.length = c3inputs.length ∧
      List.Sorted newerEq l) ∧
    (∃ l : List Submission, (handleListNoSort (runSubmits c3inputs initState)).body =
        .json (.arr (l.map submissionJson)) ∧
      l.Perm (recordsFrom 0 c3inputs) ∧ l.length = c3inputs.length) :=
  have hval : ∀ p ∈ c3inputs, validBody p.1 = true := by decide
  ⟨hval, (c3_list_behavior c3inputs hval).1,
   (c3_list_behavior c3inputs hval).2.2.1,
   (c3_list_behavior c3inputs hval).2.2.2.1⟩
